import Mathlib

/-!
Verification development for the dexmain Pokédex application.

The Python sources are embedded shallowly:
* `src/backend.py` — `get_dex_entry` (query layer with the hardcoded `"1773"`
  entry, database matching and the JSON fallback) and `get_all_pokemon`
  (list query with JSON fallback and exception behaviour).
* `src/database.py` — `populate_db_from_json` (normalized relational load,
  INSERT-OR-IGNORE semantics, lookup-table caches, single transaction).
* `src/pull_data.py` — collection of per-item fetch results, sorting by id,
  and the `asyncio.Semaphore(50)` concurrency limiter.
* `src/dex_tui.py` — the `on_mount` screen choice.

Machine strings are Lean `String`s; Python `str.lower` is modelled by an
ASCII character-wise lowering, `str()` of an integer by `toString`, and
SQLite's numeric-affinity comparison of an INTEGER column against a text
parameter by decimal parsing of the parameter.
-/

namespace Dex

/-- ASCII model of Python `str.lower()`: lower each character. -/
def strLower (s : String) : String := String.mk (s.data.map Char.toLower)

/-- Decimal parse of a string, modelling SQLite's numeric-affinity conversion
of a text parameter when compared against an INTEGER column (`p.id = ?`):
the text matches the row id exactly when it is a digit string denoting it. -/
def strToNat (s : String) : Option Nat :=
  if s.data ≠ [] ∧ s.data.all Char.isDigit then
    some (s.data.foldl (fun acc c => acc * 10 + (c.toNat - 48)) 0)
  else none

/-- Python `str.capitalize()`: first character upper-cased, rest lowered. -/
def pyCapitalize (s : String) : String :=
  match s.data with
  | [] => ""
  | c :: cs => String.mk (c.toUpper :: cs.map Char.toLower)

/-- The named stat block of a record (`stats` dict / `stats` table row). -/
structure Stats where
  hp : Nat
  attack : Nat
  defense : Nat
  special_attack : Nat
  special_defense : Nat
  speed : Nat
deriving DecidableEq, Repr

/-- One Pokémon record as fetched by `pull_data.py` and stored in `dex.json`,
also the joined database view of one Pokémon that `get_dex_entry` reads. -/
structure Record where
  name : String
  id : Nat
  types : List String
  abilities : List String
  height : Nat
  weight : Nat
  stats : Stats
  flavor_text : String
  ascii_art : String
deriving DecidableEq, Repr

/-- The dictionary `get_dex_entry` returns on success.  `ascii_art` is an
`Option` because the hardcoded `"1773"` entry has no `ascii_art` key. -/
structure Entry where
  name : String
  id : Nat
  types : List String
  abilities : List String
  height : Nat
  weight : Nat
  stats : Stats
  flavor_text : String
  ascii_art : Option String
deriving DecidableEq, Repr

/-- Result of `get_dex_entry`: a found entry, the database-path not-found
error, the JSON-fallback not-found error, or the `DB_ERROR_MESSAGE` dict. -/
inductive QueryResult where
  | found (e : Entry)
  | errNotFound (input : String)
  | errNotFoundJson (input : String)
  | errDbMessage
deriving DecidableEq, Repr

/-- The data sources `get_dex_entry` / `get_all_pokemon` consult: the SQLite
database (`none` models `sqlite3.Error`, the unreachable store) and the
`dex.json` file (`none` models `IOError` / `json.JSONDecodeError`). -/
structure Env where
  db : Option (List Record)
  jsonFile : Option (List Record)

/-- Python `random.randint(lo, hi)` with one draw `r` of the global RNG
stream: a value in `[lo, hi]`. -/
def randint (lo hi r : Nat) : Nat := lo + r % (hi - lo + 1)

/-- The hardcoded dictionary `get_dex_entry` returns for input `"1773"`
(`backend.py` lines 34–44); its height, weight and stats are fresh
`random.randint` draws, modelled by reads of the RNG stream `rng`. -/
def easterEgg (rng : Nat → Nat) : Entry :=
  { name := "Definery", id := 1773, types := ["dark"], abilities := ["thief"],
    height := randint 1 100 (rng 0), weight := randint 1 2000 (rng 1),
    stats := { hp := randint 1 255 (rng 2), attack := randint 1 255 (rng 3),
               defense := randint 1 255 (rng 4),
               special_attack := randint 1 255 (rng 5),
               special_defense := randint 1 255 (rng 6),
               speed := randint 1 255 (rng 7) },
    flavor_text := "sonned by all", ascii_art := none }

/-- GROUP_CONCAT followed by Python `split(',')`, guarded by the falsy check
`row["types"] else []`: NULL/empty concatenation yields the empty list. -/
def groupConcatSplit (parts : List String) : List String :=
  if parts.isEmpty then [] else (String.intercalate (",") parts).splitOn (",")

/-- Row-to-dict conversion on the database path of `get_dex_entry`: the name
is capitalized, the concatenated type/ability strings are split back. -/
def dbEntry (r : Record) : Entry :=
  { name := pyCapitalize r.name, id := r.id,
    types := groupConcatSplit r.types, abilities := groupConcatSplit r.abilities,
    height := r.height, weight := r.weight, stats := r.stats,
    flavor_text := r.flavor_text, ascii_art := some r.ascii_art }

/-- The JSON fallback of `get_dex_entry` returns the stored record `p`
unchanged. -/
def jsonEntry (r : Record) : Entry :=
  { name := r.name, id := r.id, types := r.types, abilities := r.abilities,
    height := r.height, weight := r.weight, stats := r.stats,
    flavor_text := r.flavor_text, ascii_art := some r.ascii_art }

/-- SQL WHERE clause `p.id = ? OR lower(p.name) = ?` with the lowered input
`param`: numeric-affinity id comparison or exact lowered-name equality. -/
def dbMatches (param : String) (r : Record) : Bool :=
  strToNat param == some r.id || strLower r.name == param

/-- JSON-fallback match `str(p["id"]) == search_term or p["name"].lower() ==
search_term`. -/
def jsonMatches (param : String) (r : Record) : Bool :=
  toString r.id == param || strLower r.name == param

/-- Shallow embedding of `backend.get_dex_entry` (`backend.py` lines 29–97).
The `"1773"` easter egg is checked first; then the database is queried with
`fetchone` (first matching row); on `sqlite3.Error` the JSON file is scanned
in order; if that read also fails the `DB_ERROR_MESSAGE` dict is returned. -/
def get_dex_entry (env : Env) (rng : Nat → Nat) (name_or_id : String) :
    QueryResult :=
  if name_or_id = "1773" then
    .found (easterEgg rng)
  else
    match env.db with
    | some rows =>
        let param := strLower name_or_id
        match rows.find? (dbMatches param) with
        | some r => .found (dbEntry r)
        | none => .errNotFound name_or_id
    | none =>
        match env.jsonFile with
        | some data =>
            let searchTerm := strLower name_or_id
            match data.find? (jsonMatches searchTerm) with
            | some p => .found (jsonEntry p)
            | none => .errNotFoundJson name_or_id
        | none => .errDbMessage

end Dex

namespace Dex

/-- A concrete stored record used by witnesses. -/
def pikachu : Record :=
  { name := "pikachu", id := 25, types := ["electric"], abilities := ["static"],
    height := 4, weight := 60,
    stats := { hp := 35, attack := 55, defense := 40, special_attack := 50,
               special_defense := 50, speed := 90 },
    flavor_text := "", ascii_art := "" }

/-- C1 (amended): for every input other than `"1773"`, `get_dex_entry`
returns a stored record that matches the input case-insensitively on name or
numerically on id — from the database when it is reachable, otherwise from
the JSON file — and returns the corresponding not-found result when no stored
record matches. -/
theorem get_dex_entry_query_correct (env : Env) (rng : Nat → Nat)
    (input : String) (h : input ≠ "1773") :
    (∀ rows, env.db = some rows →
      ((∃ r ∈ rows, dbMatches (strLower input) r = true ∧
          get_dex_entry env rng input = QueryResult.found (dbEntry r)) ∨
       ((∀ r ∈ rows, dbMatches (strLower input) r = false) ∧
          get_dex_entry env rng input = QueryResult.errNotFound input))) ∧
    (env.db = none → ∀ data, env.jsonFile = some data →
      ((∃ p ∈ data, jsonMatches (strLower input) p = true ∧
          get_dex_entry env rng input = QueryResult.found (jsonEntry p)) ∨
       ((∀ p ∈ data, jsonMatches (strLower input) p = false) ∧
          get_dex_entry env rng input = QueryResult.errNotFoundJson input))) := by
  constructor
  · intro rows hdb
    cases hfind : rows.find? (dbMatches (strLower input)) with
    | some r =>
        exact Or.inl ⟨r, List.mem_of_find?_eq_some hfind, List.find?_some hfind,
          by simp [get_dex_entry, h, hdb, hfind]⟩
    | none =>
        refine Or.inr ⟨fun r hr => ?_, by simp [get_dex_entry, h, hdb, hfind]⟩
        simpa using List.find?_eq_none.mp hfind r hr
  · intro hdb data hjson
    cases hfind : data.find? (jsonMatches (strLower input)) with
    | some p =>
        exact Or.inl ⟨p, List.mem_of_find?_eq_some hfind, List.find?_some hfind,
          by simp [get_dex_entry, h, hdb, hjson, hfind]⟩
    | none =>
        refine Or.inr ⟨fun p hp => ?_, by simp [get_dex_entry, h, hdb, hjson, hfind]⟩
        simpa using List.find?_eq_none.mp hfind p hp

/-- Witness for C1 at a concrete store and the concrete input `"PIKACHU"`. -/
theorem get_dex_entry_query_correct_witness :
    (∀ rows, ({ db := some [pikachu], jsonFile := none } : Env).db = some rows →
      ((∃ r ∈ rows, dbMatches (strLower ("PIKACHU")) r = true ∧
          get_dex_entry { db := some [pikachu], jsonFile := none } (fun _ => 0)
            "PIKACHU" = QueryResult.found (dbEntry r)) ∨
       ((∀ r ∈ rows, dbMatches (strLower ("PIKACHU")) r = false) ∧
          get_dex_entry { db := some [pikachu], jsonFile := none } (fun _ => 0)
            "PIKACHU" = QueryResult.errNotFound ("PIKACHU")))) ∧
    (({ db := some [pikachu], jsonFile := none } : Env).db = none →
      ∀ data, ({ db := some [pikachu], jsonFile := none } : Env).jsonFile = some data →
      ((∃ p ∈ data, jsonMatches (strLower ("PIKACHU")) p = true ∧
          get_dex_entry { db := some [pikachu], jsonFile := none } (fun _ => 0)
            "PIKACHU" = QueryResult.found (jsonEntry p)) ∨
       ((∀ p ∈ data, jsonMatches (strLower ("PIKACHU")) p = false) ∧
          get_dex_entry { db := some [pikachu], jsonFile := none } (fun _ => 0)
            "PIKACHU" = QueryResult.errNotFoundJson ("PIKACHU")))) :=
  get_dex_entry_query_correct { db := some [pikachu], jsonFile := none }
    (fun _ => 0) "PIKACHU" (by decide)

/-- C1 counterexample: on the empty store no record matches `"1773"`, yet
`get_dex_entry` does not return a not-found result — it returns the hardcoded
`"Definery"` entry, which is not a stored record. -/
theorem get_dex_entry_easter_egg_cex :
    get_dex_entry { db := some [], jsonFile := some [] } (fun _ => 0) "1773"
      = QueryResult.found (easterEgg (fun _ => 0)) ∧
    get_dex_entry { db := some [], jsonFile := some [] } (fun _ => 0) "1773"
      ≠ QueryResult.errNotFound ("1773") ∧
    get_dex_entry { db := some [], jsonFile := some [] } (fun _ => 0) "1773"
      ≠ QueryResult.errNotFoundJson ("1773") ∧
    (easterEgg (fun _ => 0)).name = "Definery" := by
  refine ⟨rfl, ?_, ?_, rfl⟩ <;> decide

/-- C2 (amended): for every input other than `"1773"`, `get_dex_entry` is
deterministic — its result does not depend on the RNG stream, so two calls
with the same argument against the same data sources return equal results. -/
theorem get_dex_entry_deterministic (env : Env) (rng₁ rng₂ : Nat → Nat)
    (input : String) (h : input ≠ "1773") :
    get_dex_entry env rng₁ input = get_dex_entry env rng₂ input := by
  simp only [get_dex_entry, if_neg h]

/-- Witness for C2 at a concrete store and input `"25"`. -/
theorem get_dex_entry_deterministic_witness :
    get_dex_entry { db := some [pikachu], jsonFile := none } (fun _ => 0) "25"
      = get_dex_entry { db := some [pikachu], jsonFile := none } (fun _ => 1) "25" :=
  get_dex_entry_deterministic { db := some [pikachu], jsonFile := none }
    (fun _ => 0) (fun _ => 1) "25" (by decide)

/-- C2 counterexample: on input `"1773"` two calls with the same argument and
the same (unchanged) data sources return different results, because the
hardcoded entry's fields are fresh `random.randint` draws. -/
theorem get_dex_entry_nondet_cex :
    get_dex_entry { db := some [], jsonFile := some [] } (fun _ => 0) "1773"
      ≠ get_dex_entry { db := some [], jsonFile := some [] } (fun _ => 1) "1773" := by
  decide

end Dex

namespace Dex

/-- A row of the `pokemon` table
(`id INTEGER PRIMARY KEY, name TEXT UNIQUE NOT NULL, height, weight,
flavor_text, ascii_art`). -/
structure PokemonRow where
  id : Nat
  name : String
  height : Nat
  weight : Nat
  flavor_text : String
  ascii_art : String
deriving DecidableEq, Repr

/-- The database tables `populate_db_from_json` touches, each as a list of
rows in insertion order; `typeSeq` / `abilitySeq` model the AUTOINCREMENT
sequence of the `types` / `abilities` tables (`cursor.lastrowid`). -/
structure DB where
  pokemon : List PokemonRow
  app_data : List Nat
  stats : List (Nat × Stats)
  types : List (Nat × String)
  typeSeq : Nat
  abilities : List (Nat × String)
  abilitySeq : Nat
  pokemon_types : List (Nat × Nat)
  pokemon_abilities : List (Nat × Nat)
deriving DecidableEq, Repr

/-- The Python-side id caches (`type_id_cache`, `ability_id_cache`). -/
structure Caches where
  typeCache : List (String × Nat)
  abilityCache : List (String × Nat)
deriving DecidableEq, Repr

/-- First-match association lookup, modelling `name in cache` / `cache[name]`. -/
def lookupCache : List (String × Nat) → String → Option Nat
  | [], _ => none
  | (k, v) :: rest, key => if key = k then some v else lookupCache rest key

/-- `INSERT OR IGNORE INTO pokemon`: ignored when a row with the same primary
key `id` or the same UNIQUE `name` already exists. -/
def insertPokemon (db : DB) (p : Record) : DB :=
  if db.pokemon.any (fun r => r.id == p.id || r.name == p.name) then db
  else { db with pokemon := db.pokemon ++
    [{ id := p.id, name := p.name, height := p.height, weight := p.weight,
       flavor_text := p.flavor_text, ascii_art := p.ascii_art }] }

/-- `INSERT OR IGNORE INTO pokemon_app_data (pokemon_id)`. -/
def insertAppData (db : DB) (pid : Nat) : DB :=
  if db.app_data.any (· == pid) then db
  else { db with app_data := db.app_data ++ [pid] }

/-- `INSERT OR IGNORE INTO stats`, keyed by `pokemon_id`. -/
def insertStats (db : DB) (pid : Nat) (s : Stats) : DB :=
  if db.stats.any (fun q => q.1 == pid) then db
  else { db with stats := db.stats ++ [(pid, s)] }

/-- `INSERT OR IGNORE INTO pokemon_types`, keyed by `(pokemon_id, type_id)`. -/
def insertPokemonType (db : DB) (pid tid : Nat) : DB :=
  if db.pokemon_types.any (· == (pid, tid)) then db
  else { db with pokemon_types := db.pokemon_types ++ [(pid, tid)] }

/-- `INSERT OR IGNORE INTO pokemon_abilities`, keyed by
`(pokemon_id, ability_id)`. -/
def insertPokemonAbility (db : DB) (pid aid : Nat) : DB :=
  if db.pokemon_abilities.any (· == (pid, aid)) then db
  else { db with pokemon_abilities := db.pokemon_abilities ++ [(pid, aid)] }

/-- Step 4 of the loader loop for one type name: on a cache miss, insert the
name into the `types` lookup table with a fresh AUTOINCREMENT id and record
it in the cache; then link `(pokemon_id, type_id)`. -/
def processType (st : DB × Caches) (pid : Nat) (tname : String) : DB × Caches :=
  match lookupCache st.2.typeCache tname with
  | some tid => (insertPokemonType st.1 pid tid, st.2)
  | none =>
      let tid := st.1.typeSeq + 1
      let db := { st.1 with types := st.1.types ++ [(tid, tname)], typeSeq := tid }
      let caches := { st.2 with typeCache := st.2.typeCache ++ [(tname, tid)] }
      (insertPokemonType db pid tid, caches)

/-- Step 5 of the loader loop for one ability name, symmetric to
`processType`. -/
def processAbility (st : DB × Caches) (pid : Nat) (aname : String) : DB × Caches :=
  match lookupCache st.2.abilityCache aname with
  | some aid => (insertPokemonAbility st.1 pid aid, st.2)
  | none =>
      let aid := st.1.abilitySeq + 1
      let db := { st.1 with
                  abilities := st.1.abilities ++ [(aid, aname)], abilitySeq := aid }
      let caches := { st.2 with abilityCache := st.2.abilityCache ++ [(aname, aid)] }
      (insertPokemonAbility db pid aid, caches)

/-- One iteration of the loader's `for pokemon in all_pokemon_data` loop:
insert into `pokemon`, `pokemon_app_data` and `stats`, then handle the type
and ability lists. -/
def processRecord (st : DB × Caches) (p : Record) : DB × Caches :=
  let db := insertPokemon st.1 p
  let db := insertAppData db p.id
  let db := insertStats db p.id p.stats
  let st1 := p.types.foldl (fun s t => processType s p.id t) (db, st.2)
  p.abilities.foldl (fun s a => processAbility s p.id a) st1

/-- The cache pre-fill (`SELECT id, name FROM types` / `abilities`). -/
def prefillCaches (db : DB) : Caches :=
  { typeCache := db.types.map (fun it => (it.2, it.1)),
    abilityCache := db.abilities.map (fun it => (it.2, it.1)) }

/-- Shallow embedding of `database.populate_db_from_json`
(`database.py` lines 136–211) on the committed (error-free) path: pre-fill
the caches from the existing lookup tables, then process each record of the
JSON file in order. -/
def populate_db_from_json (db : DB) (records : List Record) : DB :=
  (records.foldl processRecord (db, prefillCaches db)).1

end Dex

namespace Dex

/-- A cache lookup that succeeds still succeeds after the cache grows. -/
theorem lookupCache_append_of_some :
    ∀ (c : List (String × Nat)) {k : String} {v : Nat},
      lookupCache c k = some v → ∀ d, lookupCache (c ++ d) k = some v := by
  intro c
  induction c with
  | nil => intro k v h _; simp [lookupCache] at h
  | cons pr rest ih =>
      intro k v h d
      obtain ⟨a, b⟩ := pr
      simp only [lookupCache, List.cons_append] at h ⊢
      by_cases hk : k = a
      · rwa [if_pos hk] at h ⊢
      · rw [if_neg hk] at h ⊢
        exact ih h d

/-- Appending a missing key to a cache makes its lookup succeed. -/
theorem lookupCache_append_miss :
    ∀ (c : List (String × Nat)) {k : String},
      lookupCache c k = none → ∀ v, lookupCache (c ++ [(k, v)]) k = some v := by
  intro c
  induction c with
  | nil => intro k _ v; simp [lookupCache]
  | cons pr rest ih =>
      intro k h v
      obtain ⟨a, b⟩ := pr
      simp only [lookupCache, List.cons_append] at h ⊢
      by_cases hk : k = a
      · rw [if_pos hk] at h; exact absurd h (by simp)
      · rw [if_neg hk] at h ⊢
        exact ih h v

/-- A failed cache lookup means the key heads no cache pair. -/
theorem lookupCache_none_not_mem :
    ∀ (c : List (String × Nat)) {k : String},
      lookupCache c k = none → ∀ pr ∈ c, pr.1 ≠ k := by
  intro c
  induction c with
  | nil => intro k _ pr hpr; simp at hpr
  | cons hd rest ih =>
      intro k h pr hpr
      obtain ⟨a, b⟩ := hd
      simp only [lookupCache] at h
      by_cases hk : k = a
      · rw [if_pos hk] at h; exact absurd h (by simp)
      · rw [if_neg hk] at h
        rcases List.mem_cons.mp hpr with h0 | h1
        · subst h0; exact fun he => hk he.symm
        · exact ih h pr h1

/-- Every list extends itself. -/
theorem exists_append_self {α : Type} (l : List α) : ∃ d : List α, l = l ++ d :=
  ⟨[], by simp⟩

/-- One loader state extends another: the tables and caches that the
idempotence argument tracks have only been appended to. -/
def grows (s u : DB × Caches) : Prop :=
  (∃ d, u.1.pokemon = s.1.pokemon ++ d) ∧
  (∃ d, u.1.app_data = s.1.app_data ++ d) ∧
  (∃ d, u.1.stats = s.1.stats ++ d) ∧
  (∃ d, u.1.pokemon_types = s.1.pokemon_types ++ d) ∧
  (∃ d, u.1.pokemon_abilities = s.1.pokemon_abilities ++ d) ∧
  (∃ d, u.2.typeCache = s.2.typeCache ++ d) ∧
  (∃ d, u.2.abilityCache = s.2.abilityCache ++ d)

theorem grows_refl (s : DB × Caches) : grows s s :=
  ⟨exists_append_self _, exists_append_self _, exists_append_self _,
   exists_append_self _, exists_append_self _, exists_append_self _,
   exists_append_self _⟩

theorem grows_trans {s u w : DB × Caches} (h1 : grows s u) (h2 : grows u w) :
    grows s w := by
  obtain ⟨⟨d1, e1⟩, ⟨d2, e2⟩, ⟨d3, e3⟩, ⟨d4, e4⟩, ⟨d5, e5⟩, ⟨d6, e6⟩, ⟨d7, e7⟩⟩ := h1
  obtain ⟨⟨f1, g1⟩, ⟨f2, g2⟩, ⟨f3, g3⟩, ⟨f4, g4⟩, ⟨f5, g5⟩, ⟨f6, g6⟩, ⟨f7, g7⟩⟩ := h2
  exact ⟨⟨d1 ++ f1, by rw [g1, e1, List.append_assoc]⟩,
         ⟨d2 ++ f2, by rw [g2, e2, List.append_assoc]⟩,
         ⟨d3 ++ f3, by rw [g3, e3, List.append_assoc]⟩,
         ⟨d4 ++ f4, by rw [g4, e4, List.append_assoc]⟩,
         ⟨d5 ++ f5, by rw [g5, e5, List.append_assoc]⟩,
         ⟨d6 ++ f6, by rw [g6, e6, List.append_assoc]⟩,
         ⟨d7 ++ f7, by rw [g7, e7, List.append_assoc]⟩⟩

theorem insertPokemon_grows (db : DB) (c : Caches) (p : Record) :
    grows (db, c) (insertPokemon db p, c) := by
  unfold insertPokemon
  split
  · exact grows_refl _
  · exact ⟨⟨_, rfl⟩, exists_append_self _, exists_append_self _,
      exists_append_self _, exists_append_self _, exists_append_self _,
      exists_append_self _⟩

theorem insertAppData_grows (db : DB) (c : Caches) (pid : Nat) :
    grows (db, c) (insertAppData db pid, c) := by
  unfold insertAppData
  split
  · exact grows_refl _
  · exact ⟨exists_append_self _, ⟨_, rfl⟩, exists_append_self _,
      exists_append_self _, exists_append_self _, exists_append_self _,
      exists_append_self _⟩

theorem insertStats_grows (db : DB) (c : Caches) (pid : Nat) (s : Stats) :
    grows (db, c) (insertStats db pid s, c) := by
  unfold insertStats
  split
  · exact grows_refl _
  · exact ⟨exists_append_self _, exists_append_self _, ⟨_, rfl⟩,
      exists_append_self _, exists_append_self _, exists_append_self _,
      exists_append_self _⟩

theorem insertPokemonType_grows (db : DB) (c : Caches) (pid tid : Nat) :
    grows (db, c) (insertPokemonType db pid tid, c) := by
  unfold insertPokemonType
  split
  · exact grows_refl _
  · exact ⟨exists_append_self _, exists_append_self _, exists_append_self _,
      ⟨_, rfl⟩, exists_append_self _, exists_append_self _,
      exists_append_self _⟩

theorem insertPokemonAbility_grows (db : DB) (c : Caches) (pid aid : Nat) :
    grows (db, c) (insertPokemonAbility db pid aid, c) := by
  unfold insertPokemonAbility
  split
  · exact grows_refl _
  · exact ⟨exists_append_self _, exists_append_self _, exists_append_self _,
      exists_append_self _, ⟨_, rfl⟩, exists_append_self _,
      exists_append_self _⟩

theorem processType_grows (s : DB × Caches) (pid : Nat) (tname : String) :
    grows s (processType s pid tname) := by
  unfold processType
  cases hl : lookupCache s.2.typeCache tname with
  | some tid => exact insertPokemonType_grows s.1 s.2 pid tid
  | none =>
      refine grows_trans (u := ({ s.1 with
          types := s.1.types ++ [(s.1.typeSeq + 1, tname)],
          typeSeq := s.1.typeSeq + 1 },
        { s.2 with typeCache := s.2.typeCache ++ [(tname, s.1.typeSeq + 1)] }))
        ?_ (insertPokemonType_grows _ _ _ _)
      exact ⟨exists_append_self _, exists_append_self _, exists_append_self _,
        exists_append_self _, exists_append_self _, ⟨_, rfl⟩,
        exists_append_self _⟩

theorem processAbility_grows (s : DB × Caches) (pid : Nat) (aname : String) :
    grows s (processAbility s pid aname) := by
  unfold processAbility
  cases hl : lookupCache s.2.abilityCache aname with
  | some aid => exact insertPokemonAbility_grows s.1 s.2 pid aid
  | none =>
      refine grows_trans (u := ({ s.1 with
          abilities := s.1.abilities ++ [(s.1.abilitySeq + 1, aname)],
          abilitySeq := s.1.abilitySeq + 1 },
        { s.2 with abilityCache := s.2.abilityCache ++ [(aname, s.1.abilitySeq + 1)] }))
        ?_ (insertPokemonAbility_grows _ _ _ _)
      exact ⟨exists_append_self _, exists_append_self _, exists_append_self _,
        exists_append_self _, exists_append_self _, exists_append_self _,
        ⟨_, rfl⟩⟩

/-- A fold of growing steps grows. -/
theorem foldl_grows {β : Type} (step : DB × Caches → β → DB × Caches)
    (hstep : ∀ s b, grows s (step s b)) :
    ∀ (l : List β) (s : DB × Caches), grows s (l.foldl step s) := by
  intro l
  induction l with
  | nil => intro s; exact grows_refl s
  | cons b rest ih =>
      intro s
      exact grows_trans (hstep s b) (ih (step s b))

theorem processRecord_grows (st : DB × Caches) (p : Record) :
    grows st (processRecord st p) := by
  unfold processRecord
  refine grows_trans (insertPokemon_grows st.1 st.2 p) ?_
  refine grows_trans (insertAppData_grows _ _ p.id) ?_
  refine grows_trans (insertStats_grows _ _ p.id p.stats) ?_
  refine grows_trans
    (foldl_grows _ (fun s t => processType_grows s p.id t) p.types _) ?_
  exact foldl_grows _ (fun s a => processAbility_grows s p.id a) p.abilities _

end Dex

namespace Dex

/-- All the INSERT-OR-IGNORE effects of one record are already present in a
loader state: reprocessing the record is a no-op. -/
def absorbed (st : DB × Caches) (p : Record) : Prop :=
  (∃ r ∈ st.1.pokemon, r.id = p.id ∨ r.name = p.name) ∧
  p.id ∈ st.1.app_data ∧
  (∃ q ∈ st.1.stats, q.1 = p.id) ∧
  (∀ t ∈ p.types, ∃ tid, lookupCache st.2.typeCache t = some tid ∧
      (p.id, tid) ∈ st.1.pokemon_types) ∧
  (∀ a ∈ p.abilities, ∃ aid, lookupCache st.2.abilityCache a = some aid ∧
      (p.id, aid) ∈ st.1.pokemon_abilities)

/-- Absorption is preserved as the loader state grows. -/
theorem absorbed_mono {s u : DB × Caches} {p : Record}
    (hg : grows s u) (ha : absorbed s p) : absorbed u p := by
  obtain ⟨⟨d1, e1⟩, ⟨d2, e2⟩, ⟨d3, e3⟩, ⟨d4, e4⟩, ⟨d5, e5⟩, ⟨d6, e6⟩, ⟨d7, e7⟩⟩ := hg
  obtain ⟨⟨r, hr, hrid⟩, happ, ⟨q, hq, hqid⟩, hty, hab⟩ := ha
  refine ⟨⟨r, by rw [e1]; exact List.mem_append_left _ hr, hrid⟩,
          by rw [e2]; exact List.mem_append_left _ happ,
          ⟨q, by rw [e3]; exact List.mem_append_left _ hq, hqid⟩,
          fun t ht => ?_, fun a ha => ?_⟩
  · obtain ⟨tid, hl, hm⟩ := hty t ht
    exact ⟨tid, by rw [e6]; exact lookupCache_append_of_some _ hl d6,
           by rw [e4]; exact List.mem_append_left _ hm⟩
  · obtain ⟨aid, hl, hm⟩ := hab a ha
    exact ⟨aid, by rw [e7]; exact lookupCache_append_of_some _ hl d7,
           by rw [e5]; exact List.mem_append_left _ hm⟩

/-- After `insertPokemon` a row with the record's id or name is present. -/
theorem insertPokemon_covers (db : DB) (p : Record) :
    ∃ r ∈ (insertPokemon db p).pokemon, r.id = p.id ∨ r.name = p.name := by
  unfold insertPokemon
  split
  · next h =>
      obtain ⟨r, hr, hpr⟩ := List.any_eq_true.mp h
      refine ⟨r, hr, ?_⟩
      rcases Bool.or_eq_true_iff.mp hpr with h1 | h1
      · exact Or.inl (by simpa using h1)
      · exact Or.inr (by simpa using h1)
  · exact ⟨_, List.mem_append_right _ (List.mem_singleton.mpr rfl), Or.inl rfl⟩

/-- After `insertAppData` the pokemon id is present. -/
theorem insertAppData_covers (db : DB) (pid : Nat) :
    pid ∈ (insertAppData db pid).app_data := by
  unfold insertAppData
  split
  · next h =>
      obtain ⟨x, hx, hpx⟩ := List.any_eq_true.mp h
      have : x = pid := by simpa using hpx
      exact this ▸ hx
  · exact List.mem_append_right _ (List.mem_singleton.mpr rfl)

/-- After `insertStats` a stats row keyed by the pokemon id is present. -/
theorem insertStats_covers (db : DB) (pid : Nat) (s : Stats) :
    ∃ q ∈ (insertStats db pid s).stats, q.1 = pid := by
  unfold insertStats
  split
  · next h =>
      obtain ⟨q, hq, hpq⟩ := List.any_eq_true.mp h
      exact ⟨q, hq, by simpa using hpq⟩
  · exact ⟨(pid, s), List.mem_append_right _ (List.mem_singleton.mpr rfl), rfl⟩

/-- After `insertPokemonType` the link pair is present. -/
theorem insertPokemonType_covers (db : DB) (pid tid : Nat) :
    (pid, tid) ∈ (insertPokemonType db pid tid).pokemon_types := by
  unfold insertPokemonType
  split
  · next h =>
      obtain ⟨x, hx, hpx⟩ := List.any_eq_true.mp h
      have : x = (pid, tid) := by simpa using hpx
      exact this ▸ hx
  · exact List.mem_append_right _ (List.mem_singleton.mpr rfl)

/-- After `insertPokemonAbility` the link pair is present. -/
theorem insertPokemonAbility_covers (db : DB) (pid aid : Nat) :
    (pid, aid) ∈ (insertPokemonAbility db pid aid).pokemon_abilities := by
  unfold insertPokemonAbility
  split
  · next h =>
      obtain ⟨x, hx, hpx⟩ := List.any_eq_true.mp h
      have : x = (pid, aid) := by simpa using hpx
      exact this ▸ hx
  · exact List.mem_append_right _ (List.mem_singleton.mpr rfl)

/-- Processing one type name leaves its id in the cache and its link row in
the link table. -/
theorem processType_covers (s : DB × Caches) (pid : Nat) (tname : String) :
    ∃ tid, lookupCache ((processType s pid tname).2).typeCache tname = some tid ∧
      (pid, tid) ∈ ((processType s pid tname).1).pokemon_types := by
  unfold processType
  cases hl : lookupCache s.2.typeCache tname with
  | some tid => exact ⟨tid, hl, insertPokemonType_covers _ _ _⟩
  | none =>
      exact ⟨s.1.typeSeq + 1, lookupCache_append_miss _ hl _,
             insertPokemonType_covers _ _ _⟩

/-- Processing one ability name leaves its id in the cache and its link row
in the link table. -/
theorem processAbility_covers (s : DB × Caches) (pid : Nat) (aname : String) :
    ∃ aid, lookupCache ((processAbility s pid aname).2).abilityCache aname = some aid ∧
      (pid, aid) ∈ ((processAbility s pid aname).1).pokemon_abilities := by
  unfold processAbility
  cases hl : lookupCache s.2.abilityCache aname with
  | some aid => exact ⟨aid, hl, insertPokemonAbility_covers _ _ _⟩
  | none =>
      exact ⟨s.1.abilitySeq + 1, lookupCache_append_miss _ hl _,
             insertPokemonAbility_covers _ _ _⟩

end Dex

namespace Dex

/-- Unfolding equation for `processRecord`. -/
theorem processRecord_eq (st : DB × Caches) (p : Record) :
    processRecord st p =
      p.abilities.foldl (fun s a => processAbility s p.id a)
        (p.types.foldl (fun s t => processType s p.id t)
          (insertStats (insertAppData (insertPokemon st.1 p) p.id) p.id p.stats,
           st.2)) := rfl

theorem insertAppData_pokemon (db : DB) (pid : Nat) :
    (insertAppData db pid).pokemon = db.pokemon := by
  unfold insertAppData; split <;> rfl

theorem insertStats_pokemon (db : DB) (pid : Nat) (s : Stats) :
    (insertStats db pid s).pokemon = db.pokemon := by
  unfold insertStats; split <;> rfl

theorem insertStats_app_data (db : DB) (pid : Nat) (s : Stats) :
    (insertStats db pid s).app_data = db.app_data := by
  unfold insertStats; split <;> rfl

/-- After folding the type handler over a list of type names, every name of
the list has a cached id whose link row is present. -/
theorem typeFold_covers (pid : Nat) :
    ∀ (ts : List String) (s : DB × Caches), ∀ t ∈ ts,
      ∃ tid,
        lookupCache ((ts.foldl (fun s x => processType s pid x) s).2).typeCache t
          = some tid ∧
        (pid, tid) ∈ ((ts.foldl (fun s x => processType s pid x) s).1).pokemon_types := by
  intro ts
  induction ts with
  | nil => intro s t ht; simp at ht
  | cons t0 rest ih =>
      intro s t ht
      rw [List.foldl_cons]
      rcases List.mem_cons.mp ht with h0 | h1
      · subst h0
        obtain ⟨tid, hl, hm⟩ := processType_covers s pid t
        have hg := foldl_grows _ (fun s x => processType_grows s pid x) rest
          (processType s pid t)
        obtain ⟨_, _, _, ⟨d4, e4⟩, _, ⟨d6, e6⟩, _⟩ := hg
        exact ⟨tid, by rw [e6]; exact lookupCache_append_of_some _ hl d6,
               by rw [e4]; exact List.mem_append_left _ hm⟩
      · exact ih (processType s pid t0) t h1

/-- After folding the ability handler over a list of ability names, every
name of the list has a cached id whose link row is present. -/
theorem abilityFold_covers (pid : Nat) :
    ∀ (as_ : List String) (s : DB × Caches), ∀ a ∈ as_,
      ∃ aid,
        lookupCache ((as_.foldl (fun s x => processAbility s pid x) s).2).abilityCache a
          = some aid ∧
        (pid, aid) ∈ ((as_.foldl (fun s x => processAbility s pid x) s).1).pokemon_abilities := by
  intro as_
  induction as_ with
  | nil => intro s a ha; simp at ha
  | cons a0 rest ih =>
      intro s a ha
      rw [List.foldl_cons]
      rcases List.mem_cons.mp ha with h0 | h1
      · subst h0
        obtain ⟨aid, hl, hm⟩ := processAbility_covers s pid a
        have hg := foldl_grows _ (fun s x => processAbility_grows s pid x) rest
          (processAbility s pid a)
        obtain ⟨_, _, _, _, ⟨d5, e5⟩, _, ⟨d7, e7⟩⟩ := hg
        exact ⟨aid, by rw [e7]; exact lookupCache_append_of_some _ hl d7,
               by rw [e5]; exact List.mem_append_left _ hm⟩
      · exact ih (processAbility s pid a0) a h1

/-- Processing a record absorbs it: all its rows are present afterwards. -/
theorem processRecord_absorbed (st : DB × Caches) (p : Record) :
    absorbed (processRecord st p) p := by
  rw [processRecord_eq]
  set s3 : DB × Caches :=
    (insertStats (insertAppData (insertPokemon st.1 p) p.id) p.id p.stats, st.2)
    with hs3
  set s4 := p.types.foldl (fun s t => processType s p.id t) s3 with hs4
  have hA : ∃ r ∈ s3.1.pokemon, r.id = p.id ∨ r.name = p.name := by
    rw [hs3]
    simpa [insertStats_pokemon, insertAppData_pokemon] using
      insertPokemon_covers st.1 p
  have hB : p.id ∈ s3.1.app_data := by
    rw [hs3]
    simpa [insertStats_app_data] using
      insertAppData_covers (insertPokemon st.1 p) p.id
  have hC : ∃ q ∈ s3.1.stats, q.1 = p.id :=
    insertStats_covers (insertAppData (insertPokemon st.1 p) p.id) p.id p.stats
  have hg34 : grows s3 s4 :=
    foldl_grows _ (fun s t => processType_grows s p.id t) p.types s3
  have hg45 : grows s4 (p.abilities.foldl (fun s a => processAbility s p.id a) s4) :=
    foldl_grows _ (fun s a => processAbility_grows s p.id a) p.abilities s4
  have hty : ∀ t ∈ p.types, ∃ tid,
      lookupCache (s4.2).typeCache t = some tid ∧
      (p.id, tid) ∈ (s4.1).pokemon_types :=
    fun t ht => typeFold_covers p.id p.types s3 t ht
  obtain ⟨⟨d1, e1⟩, ⟨d2, e2⟩, ⟨d3, e3⟩, ⟨d4, e4⟩, ⟨d5, e5⟩, ⟨d6, e6⟩, ⟨d7, e7⟩⟩ := hg45
  obtain ⟨⟨f1, g1⟩, ⟨f2, g2⟩, ⟨f3, g3⟩, _, _, _, _⟩ := hg34
  obtain ⟨r, hr, hrid⟩ := hA
  obtain ⟨q, hq, hqid⟩ := hC
  refine ⟨⟨r, ?_, hrid⟩, ?_, ⟨q, ?_, hqid⟩, fun t ht => ?_, fun a ha => ?_⟩
  · rw [e1, g1]
    exact List.mem_append_left _ (List.mem_append_left _ hr)
  · rw [e2, g2]
    exact List.mem_append_left _ (List.mem_append_left _ hB)
  · rw [e3, g3]
    exact List.mem_append_left _ (List.mem_append_left _ hq)
  · obtain ⟨tid, hl, hm⟩ := hty t ht
    exact ⟨tid, by rw [e6]; exact lookupCache_append_of_some _ hl d6,
           by rw [e4]; exact List.mem_append_left _ hm⟩
  · exact abilityFold_covers p.id p.abilities s4 a ha

end Dex

namespace Dex

theorem insertPokemon_noop {db : DB} {p : Record}
    (h : ∃ r ∈ db.pokemon, r.id = p.id ∨ r.name = p.name) :
    insertPokemon db p = db := by
  unfold insertPokemon
  rw [if_pos]
  obtain ⟨r, hr, hid⟩ := h
  refine List.any_eq_true.mpr ⟨r, hr, ?_⟩
  rcases hid with h1 | h1 <;> simp [h1]

theorem insertAppData_noop {db : DB} {pid : Nat} (h : pid ∈ db.app_data) :
    insertAppData db pid = db := by
  unfold insertAppData
  rw [if_pos]
  exact List.any_eq_true.mpr ⟨pid, h, by simp⟩

theorem insertStats_noop {db : DB} {pid : Nat} {s : Stats}
    (h : ∃ q ∈ db.stats, q.1 = pid) : insertStats db pid s = db := by
  unfold insertStats
  rw [if_pos]
  obtain ⟨q, hq, hqid⟩ := h
  exact List.any_eq_true.mpr ⟨q, hq, by simp [hqid]⟩

theorem insertPokemonType_noop {db : DB} {pid tid : Nat}
    (h : (pid, tid) ∈ db.pokemon_types) : insertPokemonType db pid tid = db := by
  unfold insertPokemonType
  rw [if_pos]
  exact List.any_eq_true.mpr ⟨(pid, tid), h, by simp⟩

theorem insertPokemonAbility_noop {db : DB} {pid aid : Nat}
    (h : (pid, aid) ∈ db.pokemon_abilities) :
    insertPokemonAbility db pid aid = db := by
  unfold insertPokemonAbility
  rw [if_pos]
  exact List.any_eq_true.mpr ⟨(pid, aid), h, by simp⟩

/-- Unfolding equation for `processType` on a cache hit. -/
theorem processType_eq_hit {s : DB × Caches} {pid : Nat} {tname : String}
    {tid : Nat} (hl : lookupCache s.2.typeCache tname = some tid) :
    processType s pid tname = (insertPokemonType s.1 pid tid, s.2) := by
  unfold processType
  rw [hl]

/-- Unfolding equation for `processType` on a cache miss. -/
theorem processType_eq_miss {s : DB × Caches} {pid : Nat} {tname : String}
    (hl : lookupCache s.2.typeCache tname = none) :
    processType s pid tname =
      (insertPokemonType
        { s.1 with
          types := s.1.types ++ [(s.1.typeSeq + 1, tname)],
          typeSeq := s.1.typeSeq + 1 } pid (s.1.typeSeq + 1),
       { s.2 with typeCache := s.2.typeCache ++ [(tname, s.1.typeSeq + 1)] }) := by
  unfold processType
  rw [hl]

/-- Unfolding equation for `processAbility` on a cache hit. -/
theorem processAbility_eq_hit {s : DB × Caches} {pid : Nat} {aname : String}
    {aid : Nat} (hl : lookupCache s.2.abilityCache aname = some aid) :
    processAbility s pid aname = (insertPokemonAbility s.1 pid aid, s.2) := by
  unfold processAbility
  rw [hl]

/-- Unfolding equation for `processAbility` on a cache miss. -/
theorem processAbility_eq_miss {s : DB × Caches} {pid : Nat} {aname : String}
    (hl : lookupCache s.2.abilityCache aname = none) :
    processAbility s pid aname =
      (insertPokemonAbility
        { s.1 with
          abilities := s.1.abilities ++ [(s.1.abilitySeq + 1, aname)],
          abilitySeq := s.1.abilitySeq + 1 } pid (s.1.abilitySeq + 1),
       { s.2 with abilityCache := s.2.abilityCache ++ [(aname, s.1.abilitySeq + 1)] }) := by
  unfold processAbility
  rw [hl]

/-- A fold of the type handler over names that are all absorbed is a no-op. -/
theorem typeFold_noop (pid : Nat) :
    ∀ (ts : List String) (s : DB × Caches),
      (∀ t ∈ ts, ∃ tid, lookupCache s.2.typeCache t = some tid ∧
        (pid, tid) ∈ s.1.pokemon_types) →
      ts.foldl (fun s x => processType s pid x) s = s := by
  intro ts
  induction ts with
  | nil => intro s _; rfl
  | cons t0 rest ih =>
      intro s h
      rw [List.foldl_cons]
      obtain ⟨tid, hl, hm⟩ := h t0 (List.mem_cons_self _ _)
      have hstep : processType s pid t0 = s := by
        rw [processType_eq_hit hl, insertPokemonType_noop hm]
      rw [hstep]
      exact ih s (fun t ht => h t (List.mem_cons_of_mem _ ht))

/-- A fold of the ability handler over names that are all absorbed is a
no-op. -/
theorem abilityFold_noop (pid : Nat) :
    ∀ (as_ : List String) (s : DB × Caches),
      (∀ a ∈ as_, ∃ aid, lookupCache s.2.abilityCache a = some aid ∧
        (pid, aid) ∈ s.1.pokemon_abilities) →
      as_.foldl (fun s x => processAbility s pid x) s = s := by
  intro as_
  induction as_ with
  | nil => intro s _; rfl
  | cons a0 rest ih =>
      intro s h
      rw [List.foldl_cons]
      obtain ⟨aid, hl, hm⟩ := h a0 (List.mem_cons_self _ _)
      have hstep : processAbility s pid a0 = s := by
        rw [processAbility_eq_hit hl, insertPokemonAbility_noop hm]
      rw [hstep]
      exact ih s (fun a ha => h a (List.mem_cons_of_mem _ ha))

/-- Reprocessing an absorbed record leaves the loader state unchanged. -/
theorem processRecord_noop {st : DB × Caches} {p : Record}
    (h : absorbed st p) : processRecord st p = st := by
  obtain ⟨hA, hB, hC, hty, hab⟩ := h
  rw [processRecord_eq, insertPokemon_noop hA, insertAppData_noop hB,
    insertStats_noop hC]
  show p.abilities.foldl (fun s a => processAbility s p.id a)
    (p.types.foldl (fun s t => processType s p.id t) st) = st
  rw [typeFold_noop p.id p.types st hty]
  exact abilityFold_noop p.id p.abilities st hab

end Dex

namespace Dex

theorem insertPokemon_types (db : DB) (p : Record) :
    (insertPokemon db p).types = db.types := by
  unfold insertPokemon; split <;> rfl

theorem insertPokemon_abilities (db : DB) (p : Record) :
    (insertPokemon db p).abilities = db.abilities := by
  unfold insertPokemon; split <;> rfl

theorem insertAppData_types (db : DB) (pid : Nat) :
    (insertAppData db pid).types = db.types := by
  unfold insertAppData; split <;> rfl

theorem insertAppData_abilities (db : DB) (pid : Nat) :
    (insertAppData db pid).abilities = db.abilities := by
  unfold insertAppData; split <;> rfl

theorem insertStats_types (db : DB) (pid : Nat) (s : Stats) :
    (insertStats db pid s).types = db.types := by
  unfold insertStats; split <;> rfl

theorem insertStats_abilities (db : DB) (pid : Nat) (s : Stats) :
    (insertStats db pid s).abilities = db.abilities := by
  unfold insertStats; split <;> rfl

theorem insertPokemonType_types (db : DB) (pid tid : Nat) :
    (insertPokemonType db pid tid).types = db.types := by
  unfold insertPokemonType; split <;> rfl

theorem insertPokemonType_abilities (db : DB) (pid tid : Nat) :
    (insertPokemonType db pid tid).abilities = db.abilities := by
  unfold insertPokemonType; split <;> rfl

theorem insertPokemonAbility_types (db : DB) (pid aid : Nat) :
    (insertPokemonAbility db pid aid).types = db.types := by
  unfold insertPokemonAbility; split <;> rfl

theorem insertPokemonAbility_abilities (db : DB) (pid aid : Nat) :
    (insertPokemonAbility db pid aid).abilities = db.abilities := by
  unfold insertPokemonAbility; split <;> rfl

/-- The Python-side caches mirror the lookup tables: this holds for the
pre-filled caches and is maintained by every loader step. -/
def cachesConsistent (st : DB × Caches) : Prop :=
  st.2.typeCache = st.1.types.map (fun it => (it.2, it.1)) ∧
  st.2.abilityCache = st.1.abilities.map (fun it => (it.2, it.1))

theorem processType_consistent {s : DB × Caches} (pid : Nat) (tname : String)
    (h : cachesConsistent s) : cachesConsistent (processType s pid tname) := by
  obtain ⟨h1, h2⟩ := h
  cases hl : lookupCache s.2.typeCache tname with
  | some tid =>
      rw [processType_eq_hit hl]
      exact ⟨by rw [insertPokemonType_types]; exact h1,
             by rw [insertPokemonType_abilities]; exact h2⟩
  | none =>
      rw [processType_eq_miss hl]
      constructor
      · show s.2.typeCache ++ [(tname, s.1.typeSeq + 1)] = _
        rw [insertPokemonType_types]
        simp [h1]
      · show s.2.abilityCache = _
        rw [insertPokemonType_abilities]
        exact h2

theorem processAbility_consistent {s : DB × Caches} (pid : Nat) (aname : String)
    (h : cachesConsistent s) : cachesConsistent (processAbility s pid aname) := by
  obtain ⟨h1, h2⟩ := h
  cases hl : lookupCache s.2.abilityCache aname with
  | some aid =>
      rw [processAbility_eq_hit hl]
      exact ⟨by rw [insertPokemonAbility_types]; exact h1,
             by rw [insertPokemonAbility_abilities]; exact h2⟩
  | none =>
      rw [processAbility_eq_miss hl]
      constructor
      · show s.2.typeCache = _
        rw [insertPokemonAbility_types]
        exact h1
      · show s.2.abilityCache ++ [(aname, s.1.abilitySeq + 1)] = _
        rw [insertPokemonAbility_abilities]
        simp [h2]

theorem typeFold_consistent (pid : Nat) :
    ∀ (ts : List String) (s : DB × Caches), cachesConsistent s →
      cachesConsistent (ts.foldl (fun s x => processType s pid x) s) := by
  intro ts
  induction ts with
  | nil => intro s h; exact h
  | cons t0 rest ih =>
      intro s h
      rw [List.foldl_cons]
      exact ih _ (processType_consistent pid t0 h)

theorem abilityFold_consistent (pid : Nat) :
    ∀ (as_ : List String) (s : DB × Caches), cachesConsistent s →
      cachesConsistent (as_.foldl (fun s x => processAbility s pid x) s) := by
  intro as_
  induction as_ with
  | nil => intro s h; exact h
  | cons a0 rest ih =>
      intro s h
      rw [List.foldl_cons]
      exact ih _ (processAbility_consistent pid a0 h)

theorem processRecord_consistent {st : DB × Caches} {p : Record}
    (h : cachesConsistent st) : cachesConsistent (processRecord st p) := by
  rw [processRecord_eq]
  apply abilityFold_consistent
  apply typeFold_consistent
  obtain ⟨h1, h2⟩ := h
  constructor
  · show st.2.typeCache = _
    rw [insertStats_types, insertAppData_types, insertPokemon_types]
    exact h1
  · show st.2.abilityCache = _
    rw [insertStats_abilities, insertAppData_abilities, insertPokemon_abilities]
    exact h2

theorem fold_consistent :
    ∀ (records : List Record) (s : DB × Caches), cachesConsistent s →
      cachesConsistent (records.foldl processRecord s) := by
  intro records
  induction records with
  | nil => intro s h; exact h
  | cons p rest ih =>
      intro s h
      rw [List.foldl_cons]
      exact ih _ (processRecord_consistent h)

theorem fold_absorbs :
    ∀ (records : List Record) (s : DB × Caches), ∀ p ∈ records,
      absorbed (records.foldl processRecord s) p := by
  intro records
  induction records with
  | nil => intro s p hp; simp at hp
  | cons p0 rest ih =>
      intro s p hp
      rw [List.foldl_cons]
      rcases List.mem_cons.mp hp with h0 | h1
      · subst h0
        exact absorbed_mono (foldl_grows _ processRecord_grows rest _)
          (processRecord_absorbed s p)
      · exact ih (processRecord s p0) p h1

theorem fold_noop :
    ∀ (records : List Record) (s : DB × Caches),
      (∀ p ∈ records, absorbed s p) → records.foldl processRecord s = s := by
  intro records
  induction records with
  | nil => intro s _; rfl
  | cons p0 rest ih =>
      intro s h
      rw [List.foldl_cons, processRecord_noop (h p0 (List.mem_cons_self _ _))]
      exact ih s (fun p hp => h p (List.mem_cons_of_mem _ hp))

/-- C3: the load stage is idempotent — running `populate_db_from_json` a
second time on the same records, over the database state produced by the
first run, leaves the database state unchanged. -/
theorem populate_db_from_json_idempotent (db : DB) (records : List Record) :
    populate_db_from_json (populate_db_from_json db records) records
      = populate_db_from_json db records := by
  unfold populate_db_from_json
  set s1 := records.foldl processRecord (db, prefillCaches db) with hs1
  have hcc1 : cachesConsistent s1 :=
    fold_consistent records (db, prefillCaches db) ⟨rfl, rfl⟩
  have hpre : (s1.1, prefillCaches s1.1) = s1 := by
    obtain ⟨h1, h2⟩ := hcc1
    have hc : prefillCaches s1.1 =
        { typeCache := s1.2.typeCache, abilityCache := s1.2.abilityCache } := by
      unfold prefillCaches
      rw [← h1, ← h2]
    rw [hc]
  have habs : ∀ p ∈ records, absorbed s1 p :=
    fun p hp => fold_absorbs records (db, prefillCaches db) p hp
  calc (records.foldl processRecord (s1.1, prefillCaches s1.1)).1
      = (records.foldl processRecord s1).1 := by rw [hpre]
    _ = s1.1 := by rw [fold_noop records s1 habs]

end Dex

namespace Dex

/-- A SQLite connection: the committed database state plus, when a
transaction is open, the uncommitted workspace all writes go to. -/
structure Conn where
  committed : DB
  txn : Option DB
deriving DecidableEq, Repr

/-- `cursor.execute("BEGIN")`: open a transaction whose workspace starts at
the committed state. -/
def beginTxn (c : Conn) : Conn := { c with txn := some c.committed }

/-- `cursor.execute("COMMIT")`: publish the workspace. -/
def commitTxn (c : Conn) : Conn :=
  match c.txn with
  | some w => { committed := w, txn := none }
  | none => c

/-- `cursor.execute("ROLLBACK")`: discard the workspace. -/
def rollbackTxn (c : Conn) : Conn := { c with txn := none }

/-- One loop iteration of `populate_db_from_json` executed through the
connection: inside a transaction the writes hit the workspace only. -/
def processRecordConn (s : Conn × Caches) (p : Record) : Conn × Caches :=
  match s.1.txn with
  | some w =>
      let st := processRecord (w, s.2) p
      ({ s.1 with txn := some st.1 }, st.2)
  | none =>
      let st := processRecord (s.1.committed, s.2) p
      ({ committed := st.1, txn := none }, st.2)

/-- `populate_db_from_json` with its transaction machinery and an error
oracle: `failAt = some k` means an exception is raised after `k` completed
loop iterations (`k ≥ records.length` models a failure at or after the last
iteration, before COMMIT), so the `except` branch runs ROLLBACK; `none`
means the run completes and commits. -/
def populate_txn (db : DB) (records : List Record) (failAt : Option Nat) : DB :=
  let c0 := beginTxn { committed := db, txn := none }
  match failAt with
  | none =>
      (commitTxn (records.foldl processRecordConn (c0, prefillCaches db)).1).committed
  | some k =>
      (rollbackTxn ((records.take k).foldl processRecordConn
        (c0, prefillCaches db)).1).committed

/-- Inside a transaction, the fold never touches the committed state. -/
theorem foldConn_committed :
    ∀ (rs : List Record) (s : Conn × Caches),
      (∃ w, s.1.txn = some w) →
      (rs.foldl processRecordConn s).1.committed = s.1.committed ∧
      (∃ w, (rs.foldl processRecordConn s).1.txn = some w) := by
  intro rs
  induction rs with
  | nil => intro s h; exact ⟨rfl, h⟩
  | cons p rest ih =>
      intro s h
      obtain ⟨w, hw⟩ := h
      rw [List.foldl_cons]
      have hstep : processRecordConn s p =
          ({ s.1 with txn := some (processRecord (w, s.2) p).1 },
           (processRecord (w, s.2) p).2) := by
        unfold processRecordConn
        split
        · next w' hw' =>
            rw [hw] at hw'
            cases hw'
            rfl
        · next hw' => rw [hw] at hw'; cases hw'
      rw [hstep]
      obtain ⟨h1, h2⟩ := ih ({ s.1 with txn := some (processRecord (w, s.2) p).1 },
        (processRecord (w, s.2) p).2) ⟨(processRecord (w, s.2) p).1, rfl⟩
      exact ⟨h1, h2⟩

/-- C4: if an error occurs at any point during the inserting loop of
`populate_db_from_json`, the ROLLBACK leaves the committed database state
exactly as it was before the run — no partial subset of records persists. -/
theorem populate_txn_rollback_unchanged (db : DB) (records : List Record)
    (k : Nat) : populate_txn db records (some k) = db := by
  unfold populate_txn
  obtain ⟨h1, _⟩ := foldConn_committed (records.take k)
    (beginTxn { committed := db, txn := none }, prefillCaches db) ⟨db, rfl⟩
  exact h1

/-- On the error-free path the transaction machinery commits exactly the
result of the pure loader: the committed-path model and `populate_db_from_json`
agree, so `populate_txn` is a faithful refinement. -/
theorem populate_txn_commit_eq (db : DB) (records : List Record) :
    populate_txn db records none = populate_db_from_json db records := by
  have key : ∀ (rs : List Record) (com : DB) (s : DB × Caches),
      rs.foldl processRecordConn ({ committed := com, txn := some s.1 }, s.2) =
        ({ committed := com, txn := some (rs.foldl processRecord s).1 },
         (rs.foldl processRecord s).2) := by
    intro rs
    induction rs with
    | nil => intro com s; rfl
    | cons p rest ih =>
        intro com s
        rw [List.foldl_cons, List.foldl_cons]
        have hstep : processRecordConn
            ({ committed := com, txn := some s.1 }, s.2) p =
            ({ committed := com, txn := some (processRecord s p).1 },
             (processRecord s p).2) := by
          unfold processRecordConn
          split
          · next w hw =>
              cases hw
              rfl
          · next hw => cases hw
        rw [hstep]
        exact ih com (processRecord s p)
  unfold populate_txn populate_db_from_json
  show (commitTxn (records.foldl processRecordConn
      (beginTxn { committed := db, txn := none }, prefillCaches db)).1).committed
    = (records.foldl processRecord (db, prefillCaches db)).1
  have h0 : (beginTxn { committed := db, txn := none }, prefillCaches db)
      = (({ committed := db, txn := some (db, prefillCaches db).1 } : Conn),
         (db, prefillCaches db).2) := rfl
  rw [h0, key records db (db, prefillCaches db)]
  rfl

end Dex

namespace Dex

theorem insertPokemonType_pokemon (db : DB) (pid tid : Nat) :
    (insertPokemonType db pid tid).pokemon = db.pokemon := by
  unfold insertPokemonType; split <;> rfl

theorem insertPokemonAbility_pokemon (db : DB) (pid aid : Nat) :
    (insertPokemonAbility db pid aid).pokemon = db.pokemon := by
  unfold insertPokemonAbility; split <;> rfl

/-- Appending a fresh element preserves `Nodup`. -/
theorem nodup_append_one {α : Type} {l : List α} {a : α}
    (h : l.Nodup) (ha : a ∉ l) : (l ++ [a]).Nodup := by
  rw [List.nodup_append]
  refine ⟨h, List.nodup_singleton a, ?_⟩
  intro x hx hx1
  rw [List.mem_singleton] at hx1
  exact ha (hx1 ▸ hx)

/-- The uniqueness invariants of the schema: pokemon ids unique (PRIMARY
KEY), pokemon names unique (UNIQUE), and each type / ability name occurs at
most once in its lookup table (UNIQUE). -/
def dbUnique (db : DB) : Prop :=
  (db.pokemon.map (fun r => r.id)).Nodup ∧
  (db.pokemon.map (fun r => r.name)).Nodup ∧
  (db.types.map (fun it => it.2)).Nodup ∧
  (db.abilities.map (fun it => it.2)).Nodup

theorem insertPokemon_unique {db : DB} {p : Record} (h : dbUnique db) :
    dbUnique (insertPokemon db p) := by
  obtain ⟨h1, h2, h3, h4⟩ := h
  unfold insertPokemon
  split
  · exact ⟨h1, h2, h3, h4⟩
  · next hany =>
      have hall : ∀ r ∈ db.pokemon, r.id ≠ p.id ∧ r.name ≠ p.name := by
        intro r hr
        constructor
        · intro he
          exact hany (List.any_eq_true.mpr ⟨r, hr, by simp [he]⟩)
        · intro he
          exact hany (List.any_eq_true.mpr ⟨r, hr, by simp [he]⟩)
      refine ⟨?_, ?_, h3, h4⟩
      · have hid : p.id ∉ db.pokemon.map (fun r => r.id) := by
          intro hmem
          obtain ⟨r, hr, hre⟩ := List.mem_map.mp hmem
          exact (hall r hr).1 hre
        simpa using nodup_append_one h1 hid
      · have hnm : p.name ∉ db.pokemon.map (fun r => r.name) := by
          intro hmem
          obtain ⟨r, hr, hre⟩ := List.mem_map.mp hmem
          exact (hall r hr).2 hre
        simpa using nodup_append_one h2 hnm

theorem processType_unique {s : DB × Caches} (pid : Nat) (tname : String)
    (hcc : cachesConsistent s) (h : dbUnique s.1) :
    dbUnique ((processType s pid tname).1) := by
  obtain ⟨h1, h2, h3, h4⟩ := h
  cases hl : lookupCache s.2.typeCache tname with
  | some tid =>
      rw [processType_eq_hit hl]
      exact ⟨by rw [insertPokemonType_pokemon]; exact h1,
             by rw [insertPokemonType_pokemon]; exact h2,
             by rw [insertPokemonType_types]; exact h3,
             by rw [insertPokemonType_abilities]; exact h4⟩
  | none =>
      rw [processType_eq_miss hl]
      refine ⟨by rw [insertPokemonType_pokemon]; exact h1,
              by rw [insertPokemonType_pokemon]; exact h2, ?_,
              by rw [insertPokemonType_abilities]; exact h4⟩
      rw [insertPokemonType_types]
      have hnm : tname ∉ s.1.types.map (fun it => it.2) := by
        intro hmem
        obtain ⟨it, hit, hite⟩ := List.mem_map.mp hmem
        exact lookupCache_none_not_mem _ (hcc.1 ▸ hl) ((fun it => (it.2, it.1)) it)
          (List.mem_map_of_mem (fun it => (it.2, it.1)) hit) hite
      simpa using nodup_append_one h3 hnm

theorem processAbility_unique {s : DB × Caches} (pid : Nat) (aname : String)
    (hcc : cachesConsistent s) (h : dbUnique s.1) :
    dbUnique ((processAbility s pid aname).1) := by
  obtain ⟨h1, h2, h3, h4⟩ := h
  cases hl : lookupCache s.2.abilityCache aname with
  | some aid =>
      rw [processAbility_eq_hit hl]
      exact ⟨by rw [insertPokemonAbility_pokemon]; exact h1,
             by rw [insertPokemonAbility_pokemon]; exact h2,
             by rw [insertPokemonAbility_types]; exact h3,
             by rw [insertPokemonAbility_abilities]; exact h4⟩
  | none =>
      rw [processAbility_eq_miss hl]
      refine ⟨by rw [insertPokemonAbility_pokemon]; exact h1,
              by rw [insertPokemonAbility_pokemon]; exact h2,
              by rw [insertPokemonAbility_types]; exact h3, ?_⟩
      rw [insertPokemonAbility_abilities]
      have hnm : aname ∉ s.1.abilities.map (fun it => it.2) := by
        intro hmem
        obtain ⟨it, hit, hite⟩ := List.mem_map.mp hmem
        exact lookupCache_none_not_mem _ (hcc.2 ▸ hl) ((fun it => (it.2, it.1)) it)
          (List.mem_map_of_mem (fun it => (it.2, it.1)) hit) hite
      simpa using nodup_append_one h4 hnm

theorem typeFold_unique (pid : Nat) :
    ∀ (ts : List String) (s : DB × Caches), cachesConsistent s → dbUnique s.1 →
      dbUnique ((ts.foldl (fun s x => processType s pid x) s).1) := by
  intro ts
  induction ts with
  | nil => intro s _ h; exact h
  | cons t0 rest ih =>
      intro s hcc h
      rw [List.foldl_cons]
      exact ih _ (processType_consistent pid t0 hcc)
        (processType_unique pid t0 hcc h)

theorem abilityFold_unique (pid : Nat) :
    ∀ (as_ : List String) (s : DB × Caches), cachesConsistent s → dbUnique s.1 →
      dbUnique ((as_.foldl (fun s x => processAbility s pid x) s).1) := by
  intro as_
  induction as_ with
  | nil => intro s _ h; exact h
  | cons a0 rest ih =>
      intro s hcc h
      rw [List.foldl_cons]
      exact ih _ (processAbility_consistent pid a0 hcc)
        (processAbility_unique pid a0 hcc h)

theorem base_consistent {st : DB × Caches} (p : Record)
    (h : cachesConsistent st) :
    cachesConsistent
      (insertStats (insertAppData (insertPokemon st.1 p) p.id) p.id p.stats,
       st.2) := by
  obtain ⟨h1, h2⟩ := h
  constructor
  · show st.2.typeCache = _
    rw [insertStats_types, insertAppData_types, insertPokemon_types]
    exact h1
  · show st.2.abilityCache = _
    rw [insertStats_abilities, insertAppData_abilities, insertPokemon_abilities]
    exact h2

theorem processRecord_unique {st : DB × Caches} {p : Record}
    (hcc : cachesConsistent st) (h : dbUnique st.1) :
    dbUnique ((processRecord st p).1) := by
  rw [processRecord_eq]
  have hdb3 : dbUnique
      (insertStats (insertAppData (insertPokemon st.1 p) p.id) p.id p.stats) := by
    obtain ⟨a1, a2, a3, a4⟩ := insertPokemon_unique h (p := p)
    exact ⟨by rw [insertStats_pokemon, insertAppData_pokemon]; exact a1,
           by rw [insertStats_pokemon, insertAppData_pokemon]; exact a2,
           by rw [insertStats_types, insertAppData_types]; exact a3,
           by rw [insertStats_abilities, insertAppData_abilities]; exact a4⟩
  exact abilityFold_unique p.id p.abilities _
    (typeFold_consistent p.id p.types _ (base_consistent p hcc))
    (typeFold_unique p.id p.types _ (base_consistent p hcc) hdb3)

theorem fold_unique :
    ∀ (records : List Record) (s : DB × Caches),
      cachesConsistent s → dbUnique s.1 →
      dbUnique ((records.foldl processRecord s).1) := by
  intro records
  induction records with
  | nil => intro s _ h; exact h
  | cons p rest ih =>
      intro s hcc h
      rw [List.foldl_cons]
      exact ih _ (processRecord_consistent hcc) (processRecord_unique hcc h)

/-- C5: a load run preserves the schema's uniqueness invariants — pokemon
ids unique, pokemon names unique, and each distinct type / ability name
occurring exactly once in its lookup table, repeated strings across records
being routed to the one existing lookup row through the caches. -/
theorem populate_db_preserves_uniqueness (db : DB) (records : List Record)
    (h : dbUnique db) : dbUnique (populate_db_from_json db records) := by
  unfold populate_db_from_json
  exact fold_unique records (db, prefillCaches db) ⟨rfl, rfl⟩ h

/-- The empty database (fresh `create_tables`). -/
def emptyDB : DB :=
  { pokemon := [], app_data := [], stats := [], types := [], typeSeq := 0,
    abilities := [], abilitySeq := 0, pokemon_types := [],
    pokemon_abilities := [] }

/-- Witness for C5: loading a duplicated record list into the empty database
yields unique ids, names, type names and ability names. -/
theorem populate_db_preserves_uniqueness_witness :
    dbUnique (populate_db_from_json emptyDB [pikachu, pikachu]) :=
  populate_db_preserves_uniqueness emptyDB [pikachu, pikachu]
    ⟨by simp [emptyDB], by simp [emptyDB], by simp [emptyDB], by simp [emptyDB]⟩

end Dex

namespace Dex

/-- The try/except wrapper of `pull_data.get_pokemon_details`
(`pull_data.py` lines 17–70): any per-item exception (HTTP status error or
otherwise) is caught and turned into `None`; a successful fetch yields the
parsed record.  The network interaction itself is abstracted into the
`outcome` argument. -/
def get_pokemon_details (outcome : Except String Record) : Option Record :=
  match outcome with
  | .ok r => some r
  | .error _ => none

/-- The collection loop of `pull_data.main` (`if result:
all_pokemon_data.append(result)`): keep the successful results in completion
order, skip the failed items. -/
def collectResults : List (Option Record) → List Record
  | [] => []
  | some r :: rest => r :: collectResults rest
  | none :: rest => collectResults rest

instance : IsTotal Record (fun a b => a.id ≤ b.id) :=
  ⟨fun a b => Nat.le_total a.id b.id⟩

instance : IsTrans Record (fun a b => a.id ≤ b.id) :=
  ⟨fun _ _ _ h1 h2 => Nat.le_trans h1 h2⟩

/-- `all_pokemon_data.sort(key=lambda p: p["id"])`: a stable sort by the
numeric identifier. -/
def sortById (l : List Record) : List Record :=
  List.insertionSort (fun a b => a.id ≤ b.id) l

/-- What `pull_data.main` serializes to `dex.json`: the successes of the
per-item fetches, in completion order, sorted by id. -/
def fetchOutput (outcomes : List (Except String Record)) : List Record :=
  sortById (collectResults (outcomes.map get_pokemon_details))

/-- C6: the sequence of records the fetch stage writes to the JSON file is
sorted in ascending order of the numeric identifier, for every collection of
per-item outcomes in every completion order. -/
theorem fetch_output_sorted_by_id (outcomes : List (Except String Record)) :
    (fetchOutput outcomes).Sorted (fun a b => a.id ≤ b.id) :=
  List.sorted_insertionSort _ _

theorem collectResults_append (xs ys : List (Option Record)) :
    collectResults (xs ++ ys) = collectResults xs ++ collectResults ys := by
  induction xs with
  | nil => rfl
  | cons o rest ih =>
      cases o with
      | some r => simp [collectResults, ih]
      | none => simp [collectResults, ih]

/-- C7: the fetch stage tolerates per-item failure — a failing item is
omitted while every item before and after it is still processed, and every
successful item's record reaches the collected output; no per-item failure
aborts the run. -/
theorem fetch_item_failure_tolerant (xs ys : List (Except String Record))
    (e : String) :
    collectResults ((xs ++ Except.error e :: ys).map get_pokemon_details)
      = collectResults (xs.map get_pokemon_details)
        ++ collectResults (ys.map get_pokemon_details) ∧
    (∀ r : Record, Except.ok r ∈ xs ++ Except.error e :: ys →
      r ∈ collectResults ((xs ++ Except.error e :: ys).map get_pokemon_details)) := by
  constructor
  · rw [List.map_append, collectResults_append, List.map_cons]
    rfl
  · intro r hr
    rw [List.map_append, collectResults_append, List.map_cons]
    show r ∈ _ ++ collectResults (get_pokemon_details (Except.error e)
      :: ys.map get_pokemon_details)
    rcases List.mem_append.mp hr with h1 | h1
    · apply List.mem_append_left
      clear hr
      induction xs with
      | nil => simp at h1
      | cons o rest ih =>
          rcases List.mem_cons.mp h1 with h0 | h0
          · subst h0
            simp [get_pokemon_details, collectResults]
          · cases o with
            | ok q => simp [get_pokemon_details, collectResults, ih h0]
            | error s => simpa [get_pokemon_details, collectResults] using ih h0
    · apply List.mem_append_right
      have h2 : Except.ok r ∈ ys := by
        rcases List.mem_cons.mp h1 with h0 | h0
        · cases h0
        · exact h0
      show r ∈ collectResults (none :: ys.map get_pokemon_details)
      clear hr h1
      induction ys with
      | nil => simp at h2
      | cons o rest ih =>
          rcases List.mem_cons.mp h2 with h0 | h0
          · subst h0
            simp [get_pokemon_details, collectResults]
          · cases o with
            | ok q =>
                have := ih h0
                simp [get_pokemon_details, collectResults] at this ⊢
                exact Or.inr this
            | error s =>
                have := ih h0
                simpa [get_pokemon_details, collectResults] using this

/-- Witness for C7 at a concrete run with one failing item between two
successes. -/
theorem fetch_item_failure_tolerant_witness :
    collectResults (([Except.ok pikachu] ++ (Except.error ("boom") : Except String Record)
        :: [Except.ok pikachu]).map get_pokemon_details)
      = collectResults ([Except.ok pikachu].map get_pokemon_details)
        ++ collectResults ([Except.ok pikachu].map get_pokemon_details) ∧
    pikachu ∈ collectResults (([Except.ok pikachu] ++ (Except.error ("boom") : Except String Record)
        :: [Except.ok pikachu]).map get_pokemon_details) :=
  ⟨(fetch_item_failure_tolerant [Except.ok pikachu] [Except.ok pikachu] ("boom")).1,
   (fetch_item_failure_tolerant [Except.ok pikachu] [Except.ok pikachu] ("boom")).2
     pikachu (by simp)⟩

end Dex

namespace Dex

/-- The two screens registered by `DexTUI` (`dex_tui.py`). -/
inductive ScreenName where
  | dex
  | setup
deriving DecidableEq, Repr

/-- `DexTUI.on_mount` (`dex_tui.py` lines 19–24): push the browse screen if
the database file exists, the setup screen otherwise. -/
def on_mount (dbExists : Bool) : ScreenName :=
  if dbExists then .dex else .setup

/-- C8: the initial screen is determined purely by whether the database file
exists — the browse (ready) screen exactly when it does, the setup screen
exactly when it does not. -/
theorem on_mount_screen_choice :
    ∀ dbExists : Bool,
      (on_mount dbExists = ScreenName.dex ↔ dbExists = true) ∧
      (on_mount dbExists = ScreenName.setup ↔ dbExists = false) := by
  decide

/-- Witness for C8 at both concrete filesystem states. -/
theorem on_mount_screen_choice_witness :
    on_mount true = ScreenName.dex ∧ on_mount false = ScreenName.setup :=
  ⟨(on_mount_screen_choice true).1.mpr rfl,
   (on_mount_screen_choice false).2.mpr rfl⟩

/-- The concurrency cap of the fetch stage: `asyncio.Semaphore(50)`
(`pull_data.py` line 77). -/
def concurrencyLimit : Nat := 50

/-- The state of the fetch run's semaphore: available permits and the number
of detail requests currently in flight (tasks inside `async with sem`). -/
structure SemState where
  permits : Nat
  inFlight : Nat
deriving DecidableEq, Repr

/-- The two events of the limiter: a task enters `async with sem` (acquire,
only when a permit is available) or leaves it (release). -/
inductive SemStep : SemState → SemState → Prop where
  | acquire (s : SemState) (h : 0 < s.permits) :
      SemStep s { permits := s.permits - 1, inFlight := s.inFlight + 1 }
  | release (s : SemState) (h : 0 < s.inFlight) :
      SemStep s { permits := s.permits + 1, inFlight := s.inFlight - 1 }

/-- States reachable from the initial semaphore state (50 permits, nothing
in flight) under any interleaving of the fetch tasks. -/
inductive SemReachable : SemState → Prop where
  | init : SemReachable { permits := concurrencyLimit, inFlight := 0 }
  | step {s u : SemState} : SemReachable s → SemStep s u → SemReachable u

theorem semReachable_invariant {s : SemState} (h : SemReachable s) :
    s.permits + s.inFlight = concurrencyLimit := by
  induction h with
  | init => rfl
  | step hr hstep ih =>
      cases hstep with
      | acquire hp => dsimp only; omega
      | release hf => dsimp only; omega

/-- C9: in every reachable state of every interleaving of the fetch tasks,
the number of detail requests in flight never exceeds the concurrency cap of
50. -/
theorem semaphore_inflight_bounded (s : SemState) (h : SemReachable s) :
    s.inFlight ≤ concurrencyLimit := by
  have := semReachable_invariant h
  omega

/-- Witness for C9 at a concrete reachable state with one task in flight. -/
theorem semaphore_inflight_bounded_witness :
    ({ permits := 49, inFlight := 1 } : SemState).inFlight ≤ concurrencyLimit :=
  semaphore_inflight_bounded { permits := 49, inFlight := 1 }
    (SemReachable.step SemReachable.init
      (SemStep.acquire { permits := concurrencyLimit, inFlight := 0 }
        (by decide)))

end Dex

namespace Dex

/-- A parsed JSON value as produced by `json.load`. -/
inductive JValue where
  | null
  | bool (b : Bool)
  | num (n : Int)
  | str (s : String)
  | arr (xs : List JValue)
  | obj (fields : List (String × JValue))

/-- Python dict key lookup on a parsed JSON object. -/
def jLookup : List (String × JValue) → String → Option JValue
  | [], _ => none
  | (k, v) :: rest, key => if key = k then some v else jLookup rest key

/-- The uncaught Python exceptions `get_all_pokemon`'s fallback can raise:
`KeyError` from `p["id"]` / `p["name"]` on a dict missing the key, and
`TypeError` from iterating or subscripting a non-dict value.  Neither is in
the `except (IOError, json.JSONDecodeError)` clause. -/
inductive PyExc where
  | keyError
  | typeError
deriving DecidableEq, Repr

/-- Python `for p in all_data`: arrays yield elements, dicts yield their
keys, strings yield their characters, everything else raises `TypeError`. -/
def pyIterate : JValue → Except PyExc (List JValue)
  | .arr xs => .ok xs
  | .obj fields => .ok (fields.map (fun kv => .str kv.1))
  | .str s => .ok (s.data.map (fun c => .str (String.mk [c])))
  | _ => .error .typeError

/-- Python `p[key]`: dict lookup (`KeyError` when missing), `TypeError` on a
non-dict. -/
def pySubscript (v : JValue) (key : String) : Except PyExc JValue :=
  match v with
  | .obj fields =>
      match jLookup fields key with
      | some x => .ok x
      | none => .error .keyError
  | _ => .error .typeError

/-- The comprehension `[{"id": p["id"], "name": p["name"]} for p in
all_data]`, evaluated left to right, propagating the first exception. -/
def buildEntries : List JValue → Except PyExc (List (JValue × JValue))
  | [] => .ok []
  | p :: rest =>
      match pySubscript p ("id"), pySubscript p ("name") with
      | .ok i, .ok n =>
          match buildEntries rest with
          | .ok l => .ok ((i, n) :: l)
          | .error e => .error e
      | .error e, _ => .error e
      | _, .error e => .error e

instance : IsTotal PokemonRow (fun a b => a.id ≤ b.id) :=
  ⟨fun a b => Nat.le_total a.id b.id⟩

instance : IsTrans PokemonRow (fun a b => a.id ≤ b.id) :=
  ⟨fun _ _ _ h1 h2 => Nat.le_trans h1 h2⟩

/-- `SELECT id, name FROM pokemon ORDER BY id LIMIT 1025`. -/
def selectIdName (rows : List PokemonRow) : List (Nat × String) :=
  ((List.insertionSort (fun a b => a.id ≤ b.id) rows).take 1025).map
    (fun r => (r.id, r.name))

/-- Shallow embedding of `backend.get_all_pokemon` (`backend.py` lines
11–27).  `dbRes = none` models `sqlite3.Error`; `jsonRes = none` models
`IOError` / `json.JSONDecodeError` (both caught, yielding `[]`); a parsed
JSON value of the wrong shape sends the fallback into an uncaught
`KeyError` / `TypeError`, surfaced as `Except.error`. -/
def get_all_pokemon (dbRes : Option (List PokemonRow))
    (jsonRes : Option JValue) : Except PyExc (List (JValue × JValue)) :=
  match dbRes with
  | some rows => .ok ((selectIdName rows).map (fun pr => (.num pr.1, .str pr.2)))
  | none =>
      match jsonRes with
      | none => .ok []
      | some v =>
          match pyIterate v with
          | .error e => .error e
          | .ok ps => buildEntries ps

/-- An element shaped as the fallback expects: a dict with both keys. -/
def hasIdAndName (v : JValue) : Bool :=
  match v with
  | .obj fields => (jLookup fields ("id")).isSome && (jLookup fields ("name")).isSome
  | _ => false

/-- The parsed JSON shape the fallback expects: an array of dicts that all
carry `id` and `name` keys. -/
def wellShapedDex : JValue → Bool
  | .arr xs => xs.all hasIdAndName
  | _ => false

/-- C10 counterexample: with the database erroring and `dex.json` holding
the valid JSON `[{}]`, the fallback raises an uncaught `KeyError` — so
`get_all_pokemon` does not return the empty list, it raises. -/
theorem get_all_pokemon_raises_cex :
    get_all_pokemon none (some (JValue.arr [JValue.obj []]))
      = Except.error PyExc.keyError := rfl

theorem buildEntries_ok :
    ∀ (ps : List JValue), (∀ p ∈ ps, hasIdAndName p = true) →
      ∃ l, buildEntries ps = .ok l := by
  intro ps
  induction ps with
  | nil => intro _; exact ⟨[], rfl⟩
  | cons p rest ih =>
      intro h
      have hp := h p (List.mem_cons_self _ _)
      cases p with
      | obj fields =>
          have h1 : ∃ i, jLookup fields ("id") = some i := by
            have := (Bool.and_eq_true _ _).mp (by simpa [hasIdAndName] using hp)
            exact Option.isSome_iff_exists.mp this.1
          have h2 : ∃ n, jLookup fields ("name") = some n := by
            have := (Bool.and_eq_true _ _).mp (by simpa [hasIdAndName] using hp)
            exact Option.isSome_iff_exists.mp this.2
          obtain ⟨i, hi⟩ := h1
          obtain ⟨n, hn⟩ := h2
          obtain ⟨l, hl⟩ := ih (fun q hq => h q (List.mem_cons_of_mem _ hq))
          have hsi : pySubscript (.obj fields) ("id") = .ok i := by
            simp only [pySubscript, hi]
          have hsn : pySubscript (.obj fields) ("name") = .ok n := by
            simp only [pySubscript, hn]
          refine ⟨(i, n) :: l, ?_⟩
          simp only [buildEntries]
          rw [hsi, hsn, hl]
      | null => simp [hasIdAndName] at hp
      | bool b => simp [hasIdAndName] at hp
      | num n => simp [hasIdAndName] at hp
      | str s => simp [hasIdAndName] at hp
      | arr xs => simp [hasIdAndName] at hp

/-- C10 (amended): `get_all_pokemon` raises no exception provided that,
whenever the database errors and the JSON file parses, the parsed value is
an array of dicts each carrying `id` and `name` keys; and when both the
database and the JSON read fail it returns the empty list.  (It reads the
database when reachable, falls back to the JSON file otherwise.) -/
theorem get_all_pokemon_no_raise (dbRes : Option (List PokemonRow))
    (jsonRes : Option JValue)
    (h : dbRes = none → ∀ v, jsonRes = some v → wellShapedDex v = true) :
    (∃ l, get_all_pokemon dbRes jsonRes = Except.ok l) ∧
    (dbRes = none → jsonRes = none →
      get_all_pokemon dbRes jsonRes = Except.ok []) := by
  cases dbRes with
  | some rows =>
      exact ⟨⟨_, rfl⟩, fun h1 _ => Option.noConfusion h1⟩
  | none =>
      cases jsonRes with
      | none => exact ⟨⟨[], rfl⟩, fun _ _ => rfl⟩
      | some v =>
          have hws := h rfl v rfl
          cases v with
          | arr xs =>
              have hall : ∀ p ∈ xs, hasIdAndName p = true := by
                simpa [wellShapedDex, List.all_eq_true] using hws
              obtain ⟨l, hl⟩ := buildEntries_ok xs hall
              refine ⟨⟨l, ?_⟩, fun _ hc => Option.noConfusion hc⟩
              show buildEntries xs = .ok l
              exact hl
          | null => simp [wellShapedDex] at hws
          | bool b => simp [wellShapedDex] at hws
          | num n => simp [wellShapedDex] at hws
          | str s => simp [wellShapedDex] at hws
          | obj fields => simp [wellShapedDex] at hws

/-- A concrete well-shaped parsed `dex.json`. -/
def sampleJson : JValue :=
  JValue.arr [JValue.obj [(("id"), JValue.num 1),
                          (("name"), JValue.str ("bulbasaur"))]]

/-- Witness for C10 at a concrete well-shaped environment. -/
theorem get_all_pokemon_no_raise_witness :
    (∃ l, get_all_pokemon none (some sampleJson) = Except.ok l) ∧
    ((none : Option (List PokemonRow)) = none → some sampleJson = none →
      get_all_pokemon none (some sampleJson) = Except.ok []) :=
  get_all_pokemon_no_raise none (some sampleJson)
    (fun _ v hv => by
      cases hv
      rfl)

end Dex
